import Mathlib

/-!
Shallow embedding of the workflow-monitoring and file-extraction logic of the
hack-helper CLI (src/cli/src/api-client.ts): the Run Initiator
(streamInitializeProject, createRun phase), the Dual-Channel Observer (the SSE
buffer parser of streamInitializeProject and the polling loop of
monitorWorkflowStatus), and the Artifact Reconciler (extractProjectFiles,
writeFilesToDirectory, copyFilesRecursively).

Strings are modelled as Lean `String`/`List Char`; filesystem paths as lists of
segments; the in-memory filesystem as an association list from segment paths to
file contents.  All definitions are executable.
-/

set_option autoImplicit false

namespace HackHelper

/-- Char-list version of startsWith: the first list is the candidate leading
segment of the second. -/
def leadsWithC : List Char → List Char → Bool
  | [], _ => true
  | _ :: _, [] => false
  | a :: as, b :: bs => a = b && leadsWithC as bs

/-- Segment-list version of startsWith, used to express "this path lies inside
that directory". -/
def leadsWith : List String → List String → Bool
  | [], _ => true
  | _ :: _, [] => false
  | a :: as, b :: bs => a = b && leadsWith as bs

/-- JavaScript String.prototype.includes, on char lists (haystack first). -/
def hasSubC : List Char → List Char → Bool
  | [], needle => needle.isEmpty
  | c :: t, needle => leadsWithC needle (c :: t) || hasSubC t needle

/-- stepId.includes("scaffold") and friends. -/
def strHasSub (s sub : String) : Bool :=
  hasSubC s.toList sub.toList

/-- JavaScript String.prototype.endsWith. -/
def endsWithStr (s suf : String) : Bool :=
  leadsWithC suf.toList.reverse s.toList.reverse

/-- Splits a path string on every slash, like p.split("/") in JavaScript;
"".split yields [""]. -/
def splitSegsAux : List Char → List Char → List String
  | [], cur => [String.mk cur.reverse]
  | c :: rest, cur =>
    if c = '/' then String.mk cur.reverse :: splitSegsAux rest []
    else splitSegsAux rest (c :: cur)

/-- The slash-separated segments of a path string. -/
def splitPathSegs (p : String) : List String :=
  splitSegsAux p.toList []

/-- One step of Node path normalization over segments of an absolute path:
empty and "." segments vanish, ".." pops the last kept segment (a ".." at the
root of an absolute path is dropped), anything else is appended. -/
def normStep (acc : List String) (seg : String) : List String :=
  if seg = "" || seg = "." then acc
  else if seg = ".." then acc.dropLast
  else acc ++ [seg]

/-- Node path.posix.normalize on the segment list of an absolute path. -/
def normalizeAbs (segs : List String) : List String :=
  segs.foldl normStep []

/-- Node path.join(outputDir, p) for an absolute outputDir given as segments:
concatenate and normalize (this is exactly what the source calls at
api-client.ts:1370; no traversal check is performed there). -/
def joinUnder (outDir : List String) (p : String) : List String :=
  normalizeAbs (outDir ++ splitPathSegs p)

/-- A file object returned from the Mastra API (interface MastraFile,
api-client.ts:16). `content` is optional. -/
structure MastraFile where
  path : String
  content : Option String
deriving DecidableEq, Repr

/-- In-memory filesystem: finite map from segment paths to contents,
represented as an association list in write order. -/
abbrev FsMap : Type := List (List String × String)

/-- fs.writeFileSync: overwrite the entry at a key if present, otherwise
append it. -/
def upsert (fs : FsMap) (k : List String) (v : String) : FsMap :=
  if fs.any (fun e => e.1 = k) then
    fs.map (fun e => if e.1 = k then (k, v) else e)
  else fs ++ [(k, v)]

/-- The body of the per-file loop of writeFilesToDirectory
(api-client.ts:1362-1385): skip a file with a falsy path, otherwise write
content (or "" when content is missing) at path.join(outputDir, file.path). -/
def writeOneFile (outDir : List String) (fs : FsMap) (f : MastraFile) : FsMap :=
  if f.path = "" then fs
  else upsert fs (joinUnder outDir f.path) (f.content.getD "")

/-- writeFilesToDirectory (api-client.ts:1345-1388), acting on the modelled
filesystem: fold the per-file write over the artifact list. -/
def writeFilesToDirectory (files : List MastraFile) (outDir : List String)
    (fs0 : FsMap) : FsMap :=
  files.foldl (writeOneFile outDir) fs0

/-- The keys (paths) present in a modelled filesystem. -/
def fsKeys (fs : FsMap) : List (List String) :=
  fs.map Prod.fst

theorem foldl_normStep_clean (l : List String) :
    ∀ acc : List String, (∀ s ∈ l, s ≠ "" ∧ s ≠ "." ∧ s ≠ "..") →
      l.foldl normStep acc = acc ++ l := by
  induction l with
  | nil => intro acc _; simp
  | cons a t ih =>
    intro acc h
    have ha := h a (by simp)
    have hstep : normStep acc a = acc ++ [a] := by
      unfold normStep
      rw [if_neg, if_neg]
      · exact ha.2.2
      · simp [ha.1, ha.2.1]
    have ht : ∀ s ∈ t, s ≠ "" ∧ s ≠ "." ∧ s ≠ ".." := by
      intro s hs; exact h s (by simp [hs])
    calc (a :: t).foldl normStep acc = t.foldl normStep (acc ++ [a]) := by
          simp [List.foldl_cons, hstep]
      _ = (acc ++ [a]) ++ t := ih (acc ++ [a]) ht
      _ = acc ++ (a :: t) := by simp

theorem foldl_normStep_no_dotdot (l : List String) :
    ∀ acc : List String, ".." ∉ l →
      ∃ t : List String, l.foldl normStep acc = acc ++ t := by
  induction l with
  | nil => intro acc _; exact ⟨[], by simp⟩
  | cons a s ih =>
    intro acc h
    have ha : a ≠ ".." := by
      intro hcontr; exact h (by simp [hcontr])
    have hs : ".." ∉ s := by
      intro hcontr; exact h (by simp [hcontr])
    have hstep : ∃ u : List String, normStep acc a = acc ++ u := by
      unfold normStep
      by_cases h1 : a = "" || a = "."
      · exact ⟨[], by simp [h1]⟩
      · exact ⟨[a], by simp [h1, ha]⟩
    obtain ⟨u, hu⟩ := hstep
    obtain ⟨t, htt⟩ := ih (acc ++ u) hs
    exact ⟨u ++ t, by simp [List.foldl_cons, hu, htt]⟩

theorem leadsWith_append (a t : List String) : leadsWith a (a ++ t) = true := by
  induction a with
  | nil => rfl
  | cons x xs ih => simp [leadsWith, ih]

theorem joinUnder_inside (outDir : List String) (p : String)
    (hclean : ∀ s ∈ outDir, s ≠ "" ∧ s ≠ "." ∧ s ≠ "..")
    (hp : ".." ∉ splitPathSegs p) :
    leadsWith outDir (joinUnder outDir p) = true := by
  unfold joinUnder normalizeAbs
  rw [List.foldl_append]
  rw [foldl_normStep_clean outDir [] hclean]
  obtain ⟨t, ht⟩ := foldl_normStep_no_dotdot (splitPathSegs p) ([] ++ outDir) hp
  rw [ht]
  simp [leadsWith_append]

theorem upsert_keys (fs : FsMap) (k0 : List String) (v : String) :
    ∀ k ∈ fsKeys (upsert fs k0 v), k ∈ fsKeys fs ∨ k = k0 := by
  intro k hk
  unfold upsert at hk
  by_cases hmem : fs.any (fun e => e.1 = k0)
  · rw [if_pos hmem] at hk
    unfold fsKeys at hk
    simp only [List.map_map, List.mem_map, Function.comp] at hk
    obtain ⟨e, he, hek⟩ := hk
    by_cases heq : e.1 = k0
    · right
      rw [if_pos heq] at hek
      exact hek ▸ rfl
    · left
      rw [if_neg heq] at hek
      unfold fsKeys
      exact hek ▸ List.mem_map_of_mem Prod.fst he
  · rw [if_neg hmem] at hk
    unfold fsKeys at hk
    simp only [List.map_append, List.mem_append] at hk
    cases hk with
    | inl h => left; exact h
    | inr h =>
      right
      simpa using h

/-- Claim C1, as stated, is false at a concrete input: writeFilesToDirectory
performs no `..` sanitization, so the artifact path "../evil.txt" written under
destination directory /out lands at /evil.txt, outside the destination. -/
theorem c1_counterexample :
    writeFilesToDirectory [⟨"../evil.txt", some "x"⟩] ["out"] []
        = [(["evil.txt"], "x")]
      ∧ leadsWith ["out"] ["evil.txt"] = false := by
  constructor
  · rfl
  · rfl

/-- Claim C1 (amended): writeFilesToDirectory joins outputDir with the artifact
path without any traversal check, so an artifact path containing ".." segments
can escape outputDir; provided every artifact path is free of ".." segments
(and outputDir is a normalized absolute directory), every file the structured
write adds lies inside outputDir. -/
theorem c1_amended (files : List MastraFile) (outDir : List String) (fs0 : FsMap)
    (hclean : ∀ s ∈ outDir, s ≠ "" ∧ s ≠ "." ∧ s ≠ "..")
    (hfiles : ∀ f ∈ files, ".." ∉ splitPathSegs f.path) :
    ∀ k ∈ fsKeys (writeFilesToDirectory files outDir fs0),
      k ∈ fsKeys fs0 ∨ leadsWith outDir k = true := by
  induction files generalizing fs0 with
  | nil => intro k hk; left; exact hk
  | cons f rest ih =>
    intro k hk
    have hrest : ∀ g ∈ rest, ".." ∉ splitPathSegs g.path := by
      intro g hg; exact hfiles g (by simp [hg])
    have hk0 : k ∈ fsKeys
        (writeFilesToDirectory rest outDir (writeOneFile outDir fs0 f)) := by
      unfold writeFilesToDirectory at hk ⊢
      rw [List.foldl_cons] at hk
      exact hk
    have hk1 := ih (writeOneFile outDir fs0 f) hrest k hk0
    cases hk1 with
    | inr h => right; exact h
    | inl h =>
      unfold writeOneFile at h
      by_cases hpath : f.path = ""
      · rw [if_pos hpath] at h; left; exact h
      · rw [if_neg hpath] at h
        have := upsert_keys fs0 (joinUnder outDir f.path) (f.content.getD "") k h
        cases this with
        | inl hh => left; exact hh
        | inr hh =>
          right
          rw [hh]
          exact joinUnder_inside outDir f.path hclean
            (hfiles f (by simp))

/-- Witness for c1_amended at a concrete artifact list: a traversal-free
artifact lands inside the destination directory. -/
theorem c1_amended_witness :
    ["out", "a", "b.ts"] ∈
        fsKeys (writeFilesToDirectory [⟨"a/b.ts", some "x"⟩] ["out"] [])
      ∧ (["out", "a", "b.ts"] ∈ fsKeys ([] : FsMap)
          ∨ leadsWith ["out"] ["out", "a", "b.ts"] = true) := by
  refine ⟨by decide, ?_⟩
  exact c1_amended [⟨"a/b.ts", some "x"⟩] ["out"] []
    (by decide) (by decide) ["out", "a", "b.ts"] (by decide)

/-- The output field of a workflow step record (api-client.ts:716-724); only
the optional files array matters to the Reconciler. -/
structure StepOutput where
  files : Option (List MastraFile)
deriving DecidableEq, Repr

/-- One step of a fetched workflow run record (api-client.ts:716-724). -/
structure StepRecord where
  status : String
  output : Option StepOutput
deriving DecidableEq, Repr

/-- A fetched workflow run record: steps keyed by stepId, in object-entry
order (api-client.ts:716-729); a missing steps object sends the Reconciler to
the filesystem fallback. -/
structure RunRecord where
  steps : Option (List (String × StepRecord))
deriving DecidableEq, Repr

/-- The structured lookup of extractProjectFiles (api-client.ts:744-807): pick
the first step whose id contains "scaffold" with status "success"; if its
output has a nonempty files array those are the artifacts; otherwise fall back
to the first step whose id contains "scaffold" at all (any status) and use its
files array when present.  `none` means the structured lookup yields nothing
and the filesystem fallback (extractFromOutputDirectory) runs instead. -/
def extractStructuredFiles (steps : List (String × StepRecord)) :
    Option (List MastraFile) :=
  match steps.find? (fun e => strHasSub e.1 "scaffold" && e.2.status == "success") with
  | some e =>
    match e.2.output with
    | none => none
    | some o =>
      match o.files with
      | none => none
      | some fl => if fl.length = 0 then none else some fl
  | none =>
    match steps.find? (fun e => strHasSub e.1 "scaffold") with
    | none => none
    | some e =>
      match e.2.output with
      | none => none
      | some o =>
        match o.files with
        | none => none
        | some fl => some fl

/-- extractProjectFiles restricted to a run record (api-client.ts:729-736 plus
the structured lookup). -/
def extractRunFiles (run : RunRecord) : Option (List MastraFile) :=
  match run.steps with
  | none => none
  | some steps => extractStructuredFiles steps

/-- The Reconciler's structured pass on the modelled filesystem: when the
structured lookup finds artifacts they are written with writeFilesToDirectory
(api-client.ts:800-807); otherwise the destination is untouched by this pass. -/
def reconcileStructured (run : RunRecord) (outDir : List String) (fs0 : FsMap) :
    FsMap :=
  match extractRunFiles run with
  | some fl => writeFilesToDirectory fl outDir fs0
  | none => fs0

/-- Claim C7: a run record whose scaffoldProject step succeeded with a single
file README.md containing "# Hi" makes the Reconciler's structured pass leave
the (initially empty) destination directory containing exactly README.md with
content "# Hi". -/
theorem c7_theorem :
    reconcileStructured
        ⟨some [("scaffoldProject",
          ⟨"success", some ⟨some [⟨"README.md", some "# Hi"⟩]⟩⟩)]⟩
        ["dest"] []
      = [(["dest", "README.md"], "# Hi")] := by
  rfl

/-- Directory names excluded from every recursive copy scan
(api-client.ts:1150-1157). -/
def excludedDirs : List String :=
  ["playground", "assets", "node_modules", "output", ".git", ".mastra"]

/-- The relevant extension / name allow-list of copyFilesRecursively
(api-client.ts:1160-1181). -/
def relevantExtensions : List String :=
  [".ts", ".js", ".tsx", ".jsx", ".json", ".md", ".html", ".css", ".scss",
   ".yaml", ".yml", ".svg", ".png", ".ico", ".gitignore", ".env",
   ".env.example", ".npmrc", ".eslintrc", ".prettierrc"]

/-- Node path.extname: the suffix from the last dot, empty when there is no
dot or the only dot is the leading character of a hidden name. -/
def extname (name : String) : String :=
  let l := name.toList
  let afterDot := l.reverse.takeWhile (fun c => c ≠ '.')
  if afterDot.length = l.length then ""
  else if l.length - 1 - afterDot.length = 0 then ""
  else String.mk ('.' :: afterDot.reverse)

/-- JavaScript String.prototype.toLowerCase, per character. -/
def lowerStr (s : String) : String :=
  String.mk (s.toList.map Char.toLower)

/-- item.startsWith(".") of the hidden-entry check (api-client.ts:1196). -/
def startsWithDot (s : String) : Bool :=
  leadsWithC ['.'] s.toList

/-- The file filter of copyFilesRecursively (api-client.ts:1217-1223): keep a
file when its lowercased extension is allow-listed, or its name ends with an
allow-listed suffix, or it is one of the named manifest/readme exceptions. -/
def isRelevantFile (item : String) : Bool :=
  relevantExtensions.contains (lowerStr (extname item))
    || relevantExtensions.any (fun e => endsWithStr item e)
    || item == "package.json" || item == "tsconfig.json" || item == "README.md"

/-- A directory tree entry of the scanned source filesystem. -/
inductive FsEntry where
  | file (name : String) (content : String)
  | dir (name : String) (children : List FsEntry)
deriving Repr

mutual

/-- copyFilesRecursively (api-client.ts:1138-1240) on the modelled tree: the
scan of a source directory named `dirName` holding `entries`.  The result is
the list of copied files as (path relative to the scan root, content); the
target-directory creation and copyFileSync writes mirror these paths under the
destination.  The top-of-call check skips the whole scan when the directory's
own name is excluded (api-client.ts:1184-1188). -/
def copyFilesRecursively (dirName : String) (entries : List FsEntry) :
    List (List String × String) :=
  if excludedDirs.contains dirName then []
  else copyItems entries

/-- The for-loop over readdirSync items (api-client.ts:1194-1237). -/
def copyItems : List FsEntry → List (List String × String)
  | [] => []
  | e :: es => copyItem e ++ copyItems es

/-- One loop iteration: hidden entries other than .gitignore are skipped
first (api-client.ts:1196-1198); excluded directories are skipped
(api-client.ts:1208-1211), other directories recurse, and files pass the
relevance filter (api-client.ts:1217-1232). -/
def copyItem : FsEntry → List (List String × String)
  | .file name content =>
    if startsWithDot name ∧ name ≠ ".gitignore" then []
    else if isRelevantFile name then [([name], content)]
    else []
  | .dir name children =>
    if startsWithDot name ∧ name ≠ ".gitignore" then []
    else if excludedDirs.contains name then []
    else (copyFilesRecursively name children).map (fun pc => (name :: pc.1, pc.2))

end

/-- Invariant of every copied path: it is nonempty, none of its directory
components is an excluded name, and any hidden component is exactly
.gitignore. -/
def goodCopyPath (p : List String) : Prop :=
  p ≠ []
    ∧ (∀ d ∈ p.dropLast, excludedDirs.contains d = false)
    ∧ (∀ d ∈ p, startsWithDot d = true → d = ".gitignore")

theorem copyItems_inv :
    ∀ (n : Nat) (entries : List FsEntry), sizeOf entries ≤ n →
      ∀ p c, (p, c) ∈ copyItems entries → goodCopyPath p := by
  intro n
  induction n with
  | zero =>
    intro entries hsz
    exfalso
    cases entries <;> simp_arith at hsz
  | succ n ih =>
    intro entries hsz p c hmem
    cases entries with
    | nil => simp [copyItems] at hmem
    | cons e es =>
      have hmem2 : (p, c) ∈ copyItem e ++ copyItems es := by
        simpa [copyItems] using hmem
      have hsz2 : sizeOf (e :: es) ≤ n + 1 := hsz
      simp only [List.cons.sizeOf_spec] at hsz2
      rcases List.mem_append.mp hmem2 with h | h
      · cases e with
        | file name content =>
          simp only [copyItem] at h
          split at h
          · simp at h
          · split at h
            · simp only [List.mem_singleton, Prod.mk.injEq] at h
              rename_i hnothid _
              obtain ⟨hp, _⟩ := h
              subst hp
              refine ⟨by simp, ?_, ?_⟩
              · intro d hd
                simp [List.dropLast] at hd
              · intro d hd hdot
                simp only [List.mem_singleton] at hd
                subst hd
                by_contra hne
                exact hnothid ⟨hdot, hne⟩
            · simp at h
        | dir name children =>
          simp only [copyItem] at h
          split at h
          · simp at h
          · split at h
            · simp at h
            · rename_i hnothid hnotexcl
              obtain ⟨pc, hmemc, heq⟩ := List.mem_map.mp h
              have hmemc2 : (pc.1, pc.2) ∈ copyItems children := by
                have : (pc.1, pc.2) ∈ copyFilesRecursively name children := hmemc
                simp only [copyFilesRecursively] at this
                rw [if_neg hnotexcl] at this
                exact this
              have hszc : sizeOf children ≤ n := by
                simp only [FsEntry.dir.sizeOf_spec] at hsz2
                omega
              have hgood := ih children hszc pc.1 pc.2 hmemc2
              obtain ⟨hne, hdl, hhid⟩ := hgood
              have hp : p = name :: pc.1 := by
                have := heq
                simp only [Prod.mk.injEq] at this
                exact this.1.symm
              subst hp
              refine ⟨by simp, ?_, ?_⟩
              · intro d hd
                cases hq : pc.1 with
                | nil => exact absurd hq hne
                | cons x xs =>
                  rw [hq] at hd
                  simp only [List.dropLast, List.mem_cons] at hd
                  rcases hd with hd | hd
                  · subst hd
                    simpa using hnotexcl
                  · apply hdl
                    rw [hq]
                    have : d ∈ (x :: xs).dropLast := by
                      simpa [List.dropLast] using hd
                    exact this
              · intro d hd hdot
                simp only [List.mem_cons] at hd
                rcases hd with hd | hd
                · subst hd
                  by_contra hne2
                  exact hnothid ⟨hdot, hne2⟩
                · exact hhid d hd hdot
      · have hszes : sizeOf es ≤ n := by omega
        exact ih es hszes p c h

/-- Claim C8: in every recursive copy scan, no file under a directory whose
name is in the exclusion list is copied: the scan root itself is not excluded
and every directory component of a copied file's relative path avoids the
exclusion list, regardless of the file's extension. -/
theorem c8_theorem (root : String) (entries : List FsEntry)
    (p : List String) (c : String)
    (hmem : (p, c) ∈ copyFilesRecursively root entries) :
    excludedDirs.contains root = false
      ∧ ∀ d ∈ p.dropLast, excludedDirs.contains d = false := by
  simp only [copyFilesRecursively] at hmem
  by_cases hroot : excludedDirs.contains root = true
  · rw [if_pos hroot] at hmem
    simp at hmem
  · have hroot2 : excludedDirs.contains root = false := by
      cases h2 : excludedDirs.contains root
      · rfl
      · exact absurd h2 hroot
    rw [if_neg hroot] at hmem
    have := copyItems_inv (sizeOf entries) entries le_rfl p c hmem
    exact ⟨hroot2, this.2.1⟩

/-- Witness for c8_theorem: a concrete scan copying a single relevant file. -/
theorem c8_witness :
    ((["a.ts"], "x") ∈
        copyFilesRecursively "proj" [FsEntry.file "a.ts" "x"])
      ∧ (excludedDirs.contains "proj" = false
          ∧ ∀ d ∈ (["a.ts"] : List String).dropLast,
              excludedDirs.contains d = false) := by
  have hmem : (["a.ts"], "x") ∈
      copyFilesRecursively "proj" [FsEntry.file "a.ts" "x"] := by
    simp [copyFilesRecursively, copyItems, copyItem]
    decide
  exact ⟨hmem, c8_theorem "proj" [FsEntry.file "a.ts" "x"] ["a.ts"] "x" hmem⟩

/-- Claim C10: every hidden entry other than .gitignore is skipped before the
extension filter is consulted, so no component of a copied path (in particular
no copied file name) starts with "." unless it is exactly .gitignore — even
though .env, .env.example, .npmrc, .eslintrc and .prettierrc all appear in the
relevant-extensions allow-list. -/
theorem c10_theorem (root : String) (entries : List FsEntry)
    (p : List String) (c : String) (d : String)
    (hmem : (p, c) ∈ copyFilesRecursively root entries)
    (hd : d ∈ p) (hdot : startsWithDot d = true) :
    d = ".gitignore"
      ∧ ([".env", ".env.example", ".npmrc", ".eslintrc",
          ".prettierrc"].all (fun e => relevantExtensions.contains e)) = true := by
  have hmem2 : (p, c) ∈ copyItems entries := by
    simp only [copyFilesRecursively] at hmem
    split at hmem
    · simp at hmem
    · exact hmem
  have := copyItems_inv (sizeOf entries) entries le_rfl p c hmem2
  exact ⟨this.2.2 d hd hdot, by decide⟩

/-- Witness for c10_theorem: the one allow-listed hidden name, .gitignore,
is copied and satisfies the conclusion. -/
theorem c10_witness :
    (([".gitignore"], "g") ∈
        copyFilesRecursively "proj" [FsEntry.file ".gitignore" "g"])
      ∧ (".gitignore" ∈ ([".gitignore"] : List String))
      ∧ startsWithDot ".gitignore" = true
      ∧ (".gitignore" = ".gitignore"
          ∧ ([".env", ".env.example", ".npmrc", ".eslintrc",
              ".prettierrc"].all (fun e => relevantExtensions.contains e)) = true) := by
  have hmem : ([".gitignore"], "g") ∈
      copyFilesRecursively "proj" [FsEntry.file ".gitignore" "g"] := by
    simp [copyFilesRecursively, copyItems, copyItem]
    decide
  refine ⟨hmem, by decide, by decide, ?_⟩
  exact c10_theorem "proj" [FsEntry.file ".gitignore" "g"] [".gitignore"] "g"
    ".gitignore" hmem (by decide) (by decide)

/-- Finds the first occurrence of the SSE frame boundary "\n\n" in the stream
buffer (buffer.indexOf("\n\n") at api-client.ts:539), returning the event data
before it and the remaining buffer after it. -/
def splitFirstSep : List Char → Option (List Char × List Char)
  | '\n' :: '\n' :: rest => some ([], rest)
  | c :: rest => (splitFirstSep rest).map (fun er => (c :: er.1, er.2))
  | [] => none

theorem splitFirstSep_some_length :
    ∀ (b : List Char) (e r : List Char),
      splitFirstSep b = some (e, r) → r.length < b.length := by
  intro b
  induction b using splitFirstSep.induct with
  | case1 rest =>
    intro e r h
    simp only [splitFirstSep] at h
    have h2 := Option.some.inj h
    have hr : rest = r := congrArg Prod.snd h2
    subst hr
    simp only [List.length_cons]
    omega
  | case2 c rest hne ih =>
    intro e r h
    rw [splitFirstSep.eq_2 c rest hne] at h
    cases hsp : splitFirstSep rest with
    | none => rw [hsp] at h; simp at h
    | some er =>
      rw [hsp] at h
      simp only [Option.map_some'] at h
      have h2 := Option.some.inj h
      have hr : er.2 = r := congrArg Prod.snd h2
      have := ih er.1 er.2 hsp
      rw [hr] at this
      simp only [List.length_cons]
      omega
  | case3 =>
    intro e r h
    simp [splitFirstSep] at h

theorem splitFirstSep_append :
    ∀ (b : List Char) (e r s : List Char),
      splitFirstSep b = some (e, r) →
        splitFirstSep (b ++ s) = some (e, r ++ s) := by
  intro b
  induction b using splitFirstSep.induct with
  | case1 rest =>
    intro e r s h
    simp only [splitFirstSep] at h
    have h2 := Option.some.inj h
    have he : ([] : List Char) = e := congrArg Prod.fst h2
    have hr : rest = r := congrArg Prod.snd h2
    subst he; subst hr
    simp only [List.cons_append]
    rw [splitFirstSep.eq_1]
  | case2 c rest hne ih =>
    intro e r s h
    rw [splitFirstSep.eq_2 c rest hne] at h
    cases hsp : splitFirstSep rest with
    | none => rw [hsp] at h; simp at h
    | some er =>
      rw [hsp] at h
      simp only [Option.map_some'] at h
      have h2 := Option.some.inj h
      have he : c :: er.1 = e := congrArg Prod.fst h2
      have hr : er.2 = r := congrArg Prod.snd h2
      have hrec := ih er.1 er.2 s hsp
      have hne2 : ∀ (rest1 : List Char),
          c = '\n' → rest ++ s = '\n' :: rest1 → False := by
        intro r1 hc hr1
        cases rest with
        | nil => exact absurd hsp (by simp [splitFirstSep])
        | cons x xs =>
          simp only [List.cons_append] at hr1
          have hx : x = '\n' := (List.cons.inj hr1).1
          exact hne xs hc (by rw [hx])
      simp only [List.cons_append]
      rw [splitFirstSep.eq_2 c (rest ++ s) hne2]
      rw [hrec]
      simp [← he, ← hr]
  | case3 =>
    intro e r s h
    simp [splitFirstSep] at h

/-- The inner while loop of the stream reader (api-client.ts:538-541): drain
every complete "\n\n"-terminated event from the buffer, keeping the trailing
partial frame as the new buffer. -/
def drainBuffer (b : List Char) : List (List Char) × List Char :=
  match hsp : splitFirstSep b with
  | some er =>
    let d := drainBuffer er.2
    (er.1 :: d.1, d.2)
  | none => ([], b)
termination_by b.length
decreasing_by
  exact splitFirstSep_some_length b er.1 er.2 (by rw [hsp])

theorem drainBuffer_some (b e r : List Char)
    (h : splitFirstSep b = some (e, r)) :
    drainBuffer b = (e :: (drainBuffer r).1, (drainBuffer r).2) := by
  rw [drainBuffer]
  split
  · rename_i er heq
    rw [h] at heq
    have := Option.some.inj heq
    rw [← this]
  · rename_i heq
    rw [h] at heq
    exact absurd heq (by simp)

theorem drainBuffer_none (b : List Char) (h : splitFirstSep b = none) :
    drainBuffer b = ([], b) := by
  rw [drainBuffer]
  split
  · rename_i er heq
    rw [h] at heq
    exact absurd heq (by simp)
  · rfl

theorem drainBuffer_leftover (b : List Char) :
    splitFirstSep (drainBuffer b).2 = none := by
  induction b using drainBuffer.induct with
  | case1 b er h ih =>
    rw [drainBuffer_some b er.1 er.2 (by rw [h])]
    exact ih
  | case2 b h =>
    rw [drainBuffer_none b h]
    exact h

theorem drainBuffer_append (b s : List Char) :
    drainBuffer (b ++ s) =
      ((drainBuffer b).1 ++ (drainBuffer ((drainBuffer b).2 ++ s)).1,
       (drainBuffer ((drainBuffer b).2 ++ s)).2) := by
  induction b using drainBuffer.induct with
  | case1 b er h ih =>
    have h2 : splitFirstSep b = some (er.1, er.2) := by rw [h]
    have h3 := splitFirstSep_append b er.1 er.2 s h2
    rw [drainBuffer_some b er.1 er.2 h2]
    rw [drainBuffer_some (b ++ s) er.1 (er.2 ++ s) h3]
    rw [ih]
    simp
  | case2 b h =>
    rw [drainBuffer_none b h]
    simp

/-- Processing one network read (api-client.ts:534-541): append the decoded
chunk to the buffer, then drain all complete events, accumulating them. -/
def feedChunk (st : List (List Char) × List Char) (chunk : List Char) :
    List (List Char) × List Char :=
  let d := drainBuffer (st.2 ++ chunk)
  (st.1 ++ d.1, d.2)

/-- The whole stream session: fold every delivered chunk into the (events,
buffer) state, starting from an empty buffer; leftover partial data in the
final buffer is never dispatched, exactly as in the read loop. -/
def feedAll (chunks : List (List Char)) : List (List Char) × List Char :=
  chunks.foldl feedChunk ([], [])

/-- JavaScript String.prototype.trim on the common whitespace characters. -/
def isWSChar (c : Char) : Bool :=
  c = ' ' || c = '\n' || c = '\t' || c = '\r'

/-- eventData = buffer.slice(0, eventEnd).trim() (api-client.ts:540). -/
def trimChars (l : List Char) : List Char :=
  ((l.dropWhile isWSChar).reverse.dropWhile isWSChar).reverse

/-- The frame dispatch head (api-client.ts:546-548): a trimmed event starting
with "data: " yields its JSON payload (the input to JSON.parse and the
step/status dispatch, which are deterministic in this payload); anything else
is logged and ignored. -/
def dataPayload (ev : List Char) : Option (List Char) :=
  let t := trimChars ev
  if leadsWithC ("data: ".toList) t then some (t.drop 6) else none

/-- The parsed event sequence of a stream session delivered as the given
chunks. -/
def parsedEvents (chunks : List (List Char)) : List (List Char) :=
  (feedAll chunks).1.filterMap dataPayload

theorem foldl_feedChunk :
    ∀ (chunks : List (List Char)) (evs : List (List Char)) (buf : List Char),
      splitFirstSep buf = none →
        chunks.foldl feedChunk (evs, buf) =
          (evs ++ (drainBuffer (buf ++ chunks.flatten)).1,
           (drainBuffer (buf ++ chunks.flatten)).2) := by
  intro chunks
  induction chunks with
  | nil =>
    intro evs buf hbuf
    simp [List.foldl_nil, drainBuffer_none buf hbuf]
  | cons c cs ih =>
    intro evs buf hbuf
    rw [List.foldl_cons]
    have hfeed : feedChunk (evs, buf) c
        = (evs ++ (drainBuffer (buf ++ c)).1, (drainBuffer (buf ++ c)).2) := rfl
    rw [hfeed]
    rw [ih (evs ++ (drainBuffer (buf ++ c)).1) (drainBuffer (buf ++ c)).2
      (drainBuffer_leftover (buf ++ c))]
    have hassoc : buf ++ (c :: cs).flatten = (buf ++ c) ++ cs.flatten := by
      simp [List.flatten]
    rw [hassoc]
    rw [drainBuffer_append (buf ++ c) cs.flatten]
    simp

/-- Claim C6: for every stream payload and every partition of it into chunks
at arbitrary boundaries (including mid-frame splits), the buffer-based frame
parser produces the same (events, leftover-buffer) state — and hence the same
parsed event sequence — as when the whole payload arrives as one chunk. -/
theorem c6_theorem (chunks : List (List Char)) :
    feedAll chunks = feedAll [chunks.flatten]
      ∧ parsedEvents chunks = parsedEvents [chunks.flatten] := by
  have hmain : feedAll chunks = feedAll [chunks.flatten] := by
    unfold feedAll
    rw [foldl_feedChunk chunks [] [] (by simp [splitFirstSep])]
    rw [foldl_feedChunk [chunks.flatten] [] [] (by simp [splitFirstSep])]
    simp
  exact ⟨hmain, by unfold parsedEvents; rw [hmain]⟩

/-- The axios error codes distinguished by the poll loop's catch block
(api-client.ts:1522-1527); otherError covers every other failure. -/
inductive ErrKind where
  | connReset
  | connRefused
  | connAborted
  | otherError
deriving DecidableEq, Repr

/-- isConnectionClosed (api-client.ts:1523-1527): ECONNRESET, ECONNREFUSED or
ECONNABORTED mean the remote side has gone away. -/
def isConnectionClosed : ErrKind → Bool
  | .connReset => true
  | .connRefused => true
  | .connAborted => true
  | .otherError => false

/-- A successful poll's response body (api-client.ts:1435-1449): the workflow
status and the activePaths entries as (stepId, step status) pairs. -/
structure PollSnapshot where
  status : String
  activePaths : List (String × String)
deriving DecidableEq, Repr

/-- One poll iteration's outcome: a snapshot or a failure kind. -/
inductive PollResult where
  | ok (snap : PollSnapshot)
  | err (kind : ErrKind)
deriving DecidableEq, Repr

/-- The resolved monitoring options (api-client.ts:1410-1413). -/
structure MonitorOptions where
  maxRetries : Nat
  stopOnCompletion : Bool
deriving DecidableEq, Repr

/-- options?.maxRetries || 3 (api-client.ts:1411): JavaScript || falls back on
a missing or zero value. -/
def resolveMaxRetries (o : Option Nat) : Nat :=
  match o with
  | some n => if n = 0 then 3 else n
  | none => 3

/-- options?.stopOnCompletion !== false (api-client.ts:1412). -/
def resolveStopOnCompletion (o : Option Bool) : Bool :=
  o ≠ some false

/-- options?.pollingInterval || 2000 (api-client.ts:1410). -/
def resolvePollingInterval (o : Option Nat) : Nat :=
  match o with
  | some n => if n = 0 then 2000 else n
  | none => 2000

/-- The mutable tracking variables of one monitorWorkflowStatus session
(api-client.ts:1416-1419). -/
structure MonitorState where
  isMonitoring : Bool
  consecutiveErrors : Nat
  hasExtractedFiles : Bool
deriving DecidableEq, Repr

/-- Session state at the start of monitoring (api-client.ts:1416-1419). -/
def initialMonitorState : MonitorState :=
  { isMonitoring := true, consecutiveErrors := 0, hasExtractedFiles := false }

/-- The observable actions of one poll iteration: the GET to the watch
endpoint, the onUpdate callback, and the two extraction entry points
(extractProjectFiles and extractFromOutputDirectory). -/
inductive MonitorAction where
  | pollRequest
  | statusUpdate (status : String) (activePaths : List (String × String))
  | extractStructured
  | extractFallback
deriving DecidableEq, Repr

/-- The terminal statuses of the stop-on-completion check
(api-client.ts:1504-1509). -/
def terminalStatuses : List String :=
  ["completed", "failed", "cancelled", "error"]

/-- isWorkflowComplete (api-client.ts:1486-1488). -/
def completeStatuses : List String :=
  ["completed", "success"]

/-- hasScaffoldCompleted (api-client.ts:1489-1492): some activePaths entry
whose stepId contains "scaffold" has status "success". -/
def hasScaffoldSuccess (ap : List (String × String)) : Bool :=
  ap.any (fun e => strHasSub e.1 "scaffold" && e.2 == "success")

/-- One iteration of the self-rescheduling poll function
(api-client.ts:1422-1574), as a step of a state machine over the delivered
poll outcome.  An inactive session does nothing (api-client.ts:1423-1425).  A
successful poll resets the failure counter, reports the snapshot, extracts
files once on workflow-completion or scaffold-success, and stops on a terminal
status (extracting first if it never has).  A connection-closed failure
triggers a final extraction (when files were never extracted) and stops; any
other failure increments the counter and stops with a final fallback
extraction once the counter reaches maxRetries. -/
def pollStep (opts : MonitorOptions) (s : MonitorState) (r : PollResult) :
    MonitorState × List MonitorAction :=
  if s.isMonitoring = false then (s, [])
  else
    match r with
    | .ok snap =>
      let s1 : MonitorState := { s with consecutiveErrors := 0 }
      let acts1 : List MonitorAction :=
        [.pollRequest, .statusUpdate snap.status snap.activePaths]
      let trigger := (completeStatuses.contains snap.status
        || hasScaffoldSuccess snap.activePaths) && !s1.hasExtractedFiles
      let s2 := if trigger then { s1 with hasExtractedFiles := true } else s1
      let acts2 := if trigger then acts1 ++ [.extractStructured] else acts1
      if opts.stopOnCompletion && terminalStatuses.contains snap.status then
        let acts3 :=
          if !s2.hasExtractedFiles then acts2 ++ [.extractStructured] else acts2
        ({ s2 with isMonitoring := false }, acts3)
      else (s2, acts2)
    | .err k =>
      let s1 : MonitorState := { s with consecutiveErrors := s.consecutiveErrors + 1 }
      if isConnectionClosed k then
        let acts := if !s1.hasExtractedFiles then
            [MonitorAction.pollRequest, .extractStructured]
          else [MonitorAction.pollRequest]
        ({ s1 with isMonitoring := false, hasExtractedFiles := true }, acts)
      else if s1.consecutiveErrors ≥ opts.maxRetries then
        let acts := if !s1.hasExtractedFiles then
            [MonitorAction.pollRequest, .extractFallback]
          else [MonitorAction.pollRequest]
        ({ s1 with isMonitoring := false }, acts)
      else (s1, [.pollRequest])

/-- Folding a whole sequence of poll outcomes through the session, collecting
every action in delivery order. -/
def runPoll (opts : MonitorOptions) :
    MonitorState → List PollResult → MonitorState × List MonitorAction
  | s, [] => (s, [])
  | s, r :: rs =>
    ((runPoll opts (pollStep opts s r).1 rs).1,
     (pollStep opts s r).2 ++ (runPoll opts (pollStep opts s r).1 rs).2)

theorem pollStep_inactive (opts : MonitorOptions) (s : MonitorState)
    (r : PollResult) (h : s.isMonitoring = false) :
    pollStep opts s r = (s, []) := by
  unfold pollStep
  rw [if_pos h]

theorem runPoll_inactive (opts : MonitorOptions) (s : MonitorState)
    (rs : List PollResult) (h : s.isMonitoring = false) :
    runPoll opts s rs = (s, []) := by
  induction rs with
  | nil => rfl
  | cons r rs ih =>
    unfold runPoll
    rw [pollStep_inactive opts s r h, ih]
    rfl

/-- The onUpdate reports contained in an action list. -/
def updatesOf (acts : List MonitorAction) :
    List (String × List (String × String)) :=
  acts.filterMap fun a =>
    match a with
    | .statusUpdate st ap => some (st, ap)
    | _ => none

/-- Default options of the polling monitor as resolved from an absent options
object. -/
def defaultMonitorOptions : MonitorOptions :=
  { maxRetries := resolveMaxRetries none,
    stopOnCompletion := resolveStopOnCompletion none }

/-- Claim C2, as stated, is false at a concrete delivery sequence: the poll
channel keeps no per-step state and relays each snapshot verbatim, so after a
snapshot reporting step extractBrief as "success" a later snapshot reporting
it as "pending" is applied and reported as pending. -/
theorem c2_counterexample :
    updatesOf (runPoll defaultMonitorOptions initialMonitorState
        [.ok ⟨"running", [("extractBrief", "success")]⟩,
         .ok ⟨"running", [("extractBrief", "pending")]⟩]).2
      = [("running", [("extractBrief", "success")]),
         ("running", [("extractBrief", "pending")])] := by
  rfl

/-- Claim C2 (amended): the Observer keeps no per-step memory and applies
every delivery verbatim — the report emitted for a successful poll is exactly
the delivered snapshot, so a pending/running delivery arriving after a success
for the same step is reported as delivered.  The element of the session state
that is sticky is the hasExtractedFiles flag: once set it never reverts across
any further deliveries. -/
theorem pollStep_extracted_mono (opts : MonitorOptions) (s : MonitorState)
    (r : PollResult) (hext : s.hasExtractedFiles = true) :
    (pollStep opts s r).1.hasExtractedFiles = true := by
  unfold pollStep
  by_cases hmon : s.isMonitoring = false
  · rw [if_pos hmon]; exact hext
  · rw [if_neg hmon]
    cases r with
    | ok snap =>
      simp only
      split <;> split <;> simp_all
    | err k =>
      simp only
      split
      · simp
      · split <;> simp_all

theorem runPoll_extracted_mono (opts : MonitorOptions) :
    ∀ (rs : List PollResult) (s : MonitorState),
      s.hasExtractedFiles = true →
        (runPoll opts s rs).1.hasExtractedFiles = true := by
  intro rs
  induction rs with
  | nil => intro s hext; exact hext
  | cons r rs ih =>
    intro s hext
    unfold runPoll
    exact ih (pollStep opts s r).1 (pollStep_extracted_mono opts s r hext)

theorem c2_amended (opts : MonitorOptions) (s : MonitorState)
    (snap : PollSnapshot) (rs : List PollResult)
    (hact : s.isMonitoring = true)
    (hext : s.hasExtractedFiles = true) :
    updatesOf (pollStep opts s (.ok snap)).2
        = [(snap.status, snap.activePaths)]
      ∧ (runPoll opts s rs).1.hasExtractedFiles = true := by
  constructor
  · unfold pollStep
    rw [if_neg (by simp [hact])]
    simp only
    split
    · split <;> simp [updatesOf, hext]
    · split <;> simp [updatesOf, hext]
  · exact runPoll_extracted_mono opts rs s hext

theorem c2_amended_witness :
    updatesOf (pollStep defaultMonitorOptions
          { isMonitoring := true, consecutiveErrors := 0,
            hasExtractedFiles := true }
          (.ok ⟨"running", [("extractBrief", "pending")]⟩)).2
        = [("running", [("extractBrief", "pending")])]
      ∧ (runPoll defaultMonitorOptions
          { isMonitoring := true, consecutiveErrors := 0,
            hasExtractedFiles := true }
          [.ok ⟨"running", [("extractBrief", "pending")]⟩]).1.hasExtractedFiles
        = true :=
  c2_amended defaultMonitorOptions
    { isMonitoring := true, consecutiveErrors := 0, hasExtractedFiles := true }
    ⟨"running", [("extractBrief", "pending")]⟩
    [.ok ⟨"running", [("extractBrief", "pending")]⟩]
    (by decide) (by decide)

/-- Claim C3: when a poll failure whose pattern indicates the remote side has
gone away (connection reset/refused/aborted) brings the consecutive-failure
count to the maxRetries ceiling, the Observer treats it as an expected
end-of-run signal: it triggers one final Reconciler attempt when files were
not yet extracted, the session becomes inactive, and no further poll
iterations do anything.  (In the code the connection-closed branch fires on
any such failure, before the retry ceiling is even consulted —
api-client.ts:1529-1545.) -/
theorem c3_theorem (opts : MonitorOptions) (s : MonitorState) (k : ErrKind)
    (rs : List PollResult)
    (hact : s.isMonitoring = true)
    (hconn : isConnectionClosed k = true)
    (hceil : s.consecutiveErrors + 1 ≥ opts.maxRetries) :
    (s.hasExtractedFiles = false →
        MonitorAction.extractStructured ∈ (pollStep opts s (.err k)).2)
      ∧ (pollStep opts s (.err k)).1.isMonitoring = false
      ∧ runPoll opts (pollStep opts s (.err k)).1 rs
          = ((pollStep opts s (.err k)).1, []) := by
  have hmon : (pollStep opts s (.err k)).1.isMonitoring = false := by
    unfold pollStep
    rw [if_neg (by simp [hact])]
    simp [hconn]
  refine ⟨?_, hmon, runPoll_inactive opts _ rs hmon⟩
  intro hext
  unfold pollStep
  rw [if_neg (by simp [hact])]
  simp [hconn, hext]

/-- Witness for c3_theorem: a connection-reset failure at the retry ceiling
with files not yet extracted. -/
theorem c3_witness :
    ((MonitorState.mk true 2 false).hasExtractedFiles = false →
        MonitorAction.extractStructured ∈
          (pollStep ⟨3, true⟩ ⟨true, 2, false⟩ (.err .connReset)).2)
      ∧ (pollStep ⟨3, true⟩ ⟨true, 2, false⟩ (.err .connReset)).1.isMonitoring
          = false
      ∧ runPoll ⟨3, true⟩ (pollStep ⟨3, true⟩ ⟨true, 2, false⟩
            (.err .connReset)).1 [.ok ⟨"running", []⟩]
          = ((pollStep ⟨3, true⟩ ⟨true, 2, false⟩ (.err .connReset)).1, []) :=
  c3_theorem ⟨3, true⟩ ⟨true, 2, false⟩ .connReset [.ok ⟨"running", []⟩]
    (by decide) (by decide) (by decide)

/-- Claim C4: a poll snapshot with a terminal status (completed, failed,
cancelled or error) under stopOnCompletion makes the monitoring flag false,
and every subsequent delivery to the session produces no state change and no
actions — no further poll iterations or network calls.  stopOnCompletion
resolves to true by default. -/
theorem c4_theorem (opts : MonitorOptions) (s : MonitorState)
    (snap : PollSnapshot) (rs : List PollResult)
    (hact : s.isMonitoring = true)
    (hstop : opts.stopOnCompletion = true)
    (hterm : terminalStatuses.contains snap.status = true) :
    (pollStep opts s (.ok snap)).1.isMonitoring = false
      ∧ runPoll opts (pollStep opts s (.ok snap)).1 rs
          = ((pollStep opts s (.ok snap)).1, [])
      ∧ resolveStopOnCompletion none = true := by
  have hmon : (pollStep opts s (.ok snap)).1.isMonitoring = false := by
    unfold pollStep
    rw [if_neg (by simp [hact])]
    simp only [hstop, hterm, Bool.and_self, if_true]
  exact ⟨hmon, runPoll_inactive opts _ rs hmon, by decide⟩

/-- Witness for c4_theorem: a completed snapshot on a fresh session. -/
theorem c4_witness :
    (pollStep ⟨3, true⟩ initialMonitorState
        (.ok ⟨"completed", []⟩)).1.isMonitoring = false
      ∧ runPoll ⟨3, true⟩ (pollStep ⟨3, true⟩ initialMonitorState
            (.ok ⟨"completed", []⟩)).1 [.ok ⟨"running", []⟩]
          = ((pollStep ⟨3, true⟩ initialMonitorState
              (.ok ⟨"completed", []⟩)).1, [])
      ∧ resolveStopOnCompletion none = true :=
  c4_theorem ⟨3, true⟩ initialMonitorState ⟨"completed", []⟩
    [.ok ⟨"running", []⟩] (by decide) (by decide) (by decide)

/-- Claim C5: the consecutive-failure counter resets to zero on any
successful poll, and a failure that brings it to the maxRetries ceiling stops
the session: the monitoring flag becomes false and no further poll iterations
are scheduled.  maxRetries resolves to 3 by default. -/
theorem c5_theorem (opts : MonitorOptions) (s : MonitorState)
    (snap : PollSnapshot) (k : ErrKind) (rs : List PollResult)
    (hact : s.isMonitoring = true)
    (hceil : s.consecutiveErrors + 1 ≥ opts.maxRetries) :
    (pollStep opts s (.ok snap)).1.consecutiveErrors = 0
      ∧ (pollStep opts s (.err k)).1.isMonitoring = false
      ∧ runPoll opts (pollStep opts s (.err k)).1 rs
          = ((pollStep opts s (.err k)).1, [])
      ∧ resolveMaxRetries none = 3 := by
  have hreset : (pollStep opts s (.ok snap)).1.consecutiveErrors = 0 := by
    unfold pollStep
    rw [if_neg (by simp [hact])]
    simp only
    split <;> split <;> rfl
  have hmon : (pollStep opts s (.err k)).1.isMonitoring = false := by
    unfold pollStep
    rw [if_neg (by simp [hact])]
    simp only
    by_cases hk : isConnectionClosed k = true
    · rw [if_pos hk]
    · rw [if_neg hk]
      rw [if_pos hceil]
  exact ⟨hreset, hmon, runPoll_inactive opts _ rs hmon, by decide⟩

/-- Witness for c5_theorem: a transient failure at the ceiling after a
successful poll. -/
theorem c5_witness :
    (pollStep ⟨3, true⟩ ⟨true, 2, false⟩
        (.ok ⟨"running", []⟩)).1.consecutiveErrors = 0
      ∧ (pollStep ⟨3, true⟩ ⟨true, 2, false⟩
          (.err .otherError)).1.isMonitoring = false
      ∧ runPoll ⟨3, true⟩ (pollStep ⟨3, true⟩ ⟨true, 2, false⟩
            (.err .otherError)).1 [.ok ⟨"running", []⟩]
          = ((pollStep ⟨3, true⟩ ⟨true, 2, false⟩ (.err .otherError)).1, [])
      ∧ resolveMaxRetries none = 3 :=
  c5_theorem ⟨3, true⟩ ⟨true, 2, false⟩ ⟨"running", []⟩ .otherError
    [.ok ⟨"running", []⟩] (by decide) (by decide)

/-- The createRun response as seen by streamInitializeProject: HTTP success
flag and the runId field of the parsed body (none when the body is malformed
or lacks the field). -/
structure CreateRunResponse where
  ok : Bool
  runId : Option String
deriving DecidableEq, Repr

/-- The externally visible calls of streamInitializeProject's initiation
sequence (api-client.ts:264-423): POST createRun, the watch fetch, POST
start-async, starting the backup polling monitor, and stream processing. -/
inductive InitAction where
  | createRunCall
  | watchRequest
  | startAsyncCall
  | startPollingMonitor
  | processStream
deriving DecidableEq, Repr

/-- The initiation phase of streamInitializeProject
(api-client.ts:272-423 with the catch at 659-671): a non-2xx createRun
response or a body without runId throws, the catch converts this to an
unsuccessful result, and nothing after the throw runs — no watch request, no
start-async, no monitoring, no extraction.  Otherwise the watch fetch is
initiated, start-async posted (its failure also throws, after the watch
request was initiated), the polling monitor started and the stream
processed; the overall result is then successful. -/
def streamInitializeProject (resp : CreateRunResponse) (startOk : Bool) :
    Bool × List InitAction :=
  if resp.ok = false then (false, [.createRunCall])
  else
    match resp.runId with
    | none => (false, [.createRunCall])
    | some _ =>
      if startOk = false then
        (false, [.createRunCall, .watchRequest, .startAsyncCall])
      else
        (true, [.createRunCall, .watchRequest, .startAsyncCall,
                .startPollingMonitor, .processStream])

/-- Claim C9: whenever createRun returns a non-2xx response or its body lacks
a runId, streamInitializeProject fails: the result is unsuccessful, the only
call made is the single createRun attempt (no retry at this layer), and no
monitoring or stream processing — hence no extraction — happens for the
run. -/
theorem c9_theorem (resp : CreateRunResponse) (startOk : Bool)
    (h : resp.ok = false ∨ resp.runId = none) :
    (streamInitializeProject resp startOk).1 = false
      ∧ (streamInitializeProject resp startOk).2 = [InitAction.createRunCall]
      ∧ InitAction.startPollingMonitor ∉ (streamInitializeProject resp startOk).2
      ∧ (streamInitializeProject resp startOk).2.count InitAction.createRunCall
          = 1 := by
  have hres : streamInitializeProject resp startOk
      = (false, [InitAction.createRunCall]) := by
    rcases h with h | h
    · unfold streamInitializeProject
      rw [if_pos h]
    · unfold streamInitializeProject
      by_cases hok : resp.ok = false
      · rw [if_pos hok]
      · rw [if_neg hok, h]
  rw [hres]
  refine ⟨rfl, rfl, by decide, by decide⟩

/-- Witness for c9_theorem: a 2xx createRun response whose body lacks the
runId field. -/
theorem c9_witness :
    (streamInitializeProject ⟨true, none⟩ true).1 = false
      ∧ (streamInitializeProject ⟨true, none⟩ true).2
          = [InitAction.createRunCall]
      ∧ InitAction.startPollingMonitor ∉ (streamInitializeProject
          ⟨true, none⟩ true).2
      ∧ (streamInitializeProject ⟨true, none⟩ true).2.count
          InitAction.createRunCall = 1 :=
  c9_theorem ⟨true, none⟩ true (by decide)

end HackHelper
